import Mathlib

/-!
# Verification of the claude-history-cloud reconciliation core

A shallow embedding of the data-reconciliation and pattern-aggregation logic
of the claude-history-cloud server, together with proofs about it.

The embedding covers:
* the federation routes (`POST /contribute`, `GET /patterns`,
  `GET /patterns/search`) over `community_patterns` / `pattern_contributions`,
* the knowledge merge (`mergeKnowledgeEntries`) over `knowledge_entries`,
* the session upsert (`mergeSessionSummaries` and the `POST /sessions`
  handler, both the same `ON CONFLICT (user_id, session_id) DO UPDATE`),
* the shared full-text tokenizer (`searchKnowledge` and the pattern search).

The relational store is modelled as explicit list-valued state threaded
through each operation; `NOW()` is modelled by an explicit `now : Nat`
parameter; the full-text `@@`-match of the store is an oracle parameter.
SQL timestamps of type BIGINT are `Int`; `NUMERIC` effectiveness is `ℚ`.
-/

namespace ClaudeHistoryCloud

/-! ## String helpers (JS semantics, ASCII model)

These model the JavaScript string pipeline used by `dedupHash` and the
full-text tokenizers. JS regexes `\w` and `\s` are modelled for ASCII
text: `\w` is `[A-Za-z0-9_]`, `\s` is whitespace.
-/

/-- JS regex `\w` character class (ASCII): letters, digits, underscore. -/
def isWordChar (c : Char) : Bool := c.isAlphanum || c = '_'

/-- ASCII model of JS `String.prototype.toLowerCase` on a character. -/
def lowerChar (c : Char) : Char :=
  if 65 ≤ c.toNat ∧ c.toNat ≤ 90 then Char.ofNat (c.toNat + 32) else c

/-- `s.toLowerCase()` (ASCII model). -/
def jsToLower (s : String) : String := String.mk (s.toList.map lowerChar)

/-- One character of `.replace(/[^\w\s]/g, ' ')`: punctuation becomes a space. -/
def punctToSpace (c : Char) : Char :=
  if isWordChar c || c.isWhitespace then c else ' '

/-- `.replace(/\s+/g, ' ')`: collapse every whitespace run to one space.
The boolean argument records whether the previous character was whitespace. -/
def collapseWsAux : Bool → List Char → List Char
  | _, [] => []
  | prevWs, c :: rest =>
    if c.isWhitespace then
      if prevWs then collapseWsAux true rest
      else ' ' :: collapseWsAux true rest
    else c :: collapseWsAux false rest

/-- `.trim()`: drop leading and trailing whitespace. -/
def trimChars (l : List Char) : List Char :=
  ((l.dropWhile Char.isWhitespace).reverse.dropWhile Char.isWhitespace).reverse

/-- The normalisation applied to the `approach` text inside `dedupHash`
(src routes/federation.ts):
`approach.toLowerCase().replace(/[^\w\s]/g, ' ').replace(/\s+/g, ' ').trim()`. -/
def normaliseApproach (a : String) : String :=
  String.mk (trimChars (collapseWsAux false ((jsToLower a).toList.map punctToSpace)))

/-- `dedupHash(category, approach)` from src routes/federation.ts.
The source feeds `` `${category}:${normalised}` `` through a SHA-256 hex
digest; the digest is modelled as the identity on its input, since every
claim concerns only equality of fingerprints, which for the code's dedup
purposes coincides with equality of the hashed normalised input. Note the
source normalises only the approach; `category` enters verbatim. -/
def dedupHash (category approach : String) : String :=
  category ++ ":" ++ normaliseApproach approach

/-- `w.replace(/[^\w]/g, '')` from the two tokenizers: delete non-word chars. -/
def stripNonWord (w : String) : String := String.mk (w.toList.filter isWordChar)

/-- `q.trim().split(/\s+/)` with the subsequent `.filter(Boolean)`:
whitespace-separated tokens, empty tokens dropped. Splitting on every
whitespace character and dropping empty pieces yields exactly the pieces
of the JS regex split after trimming. -/
def splitWsAux : List Char → List Char → List String
  | acc, [] => [String.mk acc.reverse]
  | acc, c :: rest =>
    if c.isWhitespace then String.mk acc.reverse :: splitWsAux [] rest
    else splitWsAux (c :: acc) rest

/-- The shared tokenizer of `searchKnowledge` (src services/search.ts) and
`GET /patterns/search` (src routes/federation.ts):
`q.trim().split(/\s+/).filter(Boolean).map(w => w.replace(/[^\w]/g, '')).filter(w => w.length > 1)`. -/
def tsQueryTokens (q : String) : List String :=
  (((splitWsAux [] q.toList).filter (fun s => s ≠ "")).map stripNonWord).filter
    (fun w => 1 < w.length)

/-- `.join(' & ')` over the tokens: the effective ts-query string.
It is empty (JS-falsy) exactly when every token was discarded. -/
def tsQueryOf (q : String) : String := String.intercalate " & " (tsQueryTokens q)

/-! ## Federation: community patterns (src routes/federation.ts)

State: the `community_patterns` table, the `pattern_contributions` ledger
(rows `(pattern_id, contributor_hash)`, unique per pair), and the id
sequence. Pattern ids are `Nat`.
-/

/-- One validated incoming pattern of `POST /contribute`. The caller's
opaque `id`, `contributorCount`, `firstSeen` and `lastSeen` fields are
ignored by the handler (it uses `NOW()` and a fixed count of 1), so they
are not modelled. -/
structure IncomingPattern where
  ptype : String
  category : String
  platform : Option String
  approach : String
  tags : List String
  effectiveness : ℚ
deriving Repr, DecidableEq

/-- A row of `community_patterns`. -/
structure CPattern where
  pid : Nat
  ptype : String
  category : String
  platform : Option String
  approach : String
  tags : List String
  effectiveness : ℚ
  contributorCount : Nat
  firstSeen : Nat
  lastSeen : Nat
  hash : String
deriving Repr, DecidableEq

/-- The federation tables: patterns, the contribution ledger, id sequence. -/
structure FedState where
  patterns : List CPattern
  ledger : List (Nat × String)
  nextId : Nat
deriving Repr, DecidableEq

def FedState.empty : FedState := ⟨[], [], 0⟩

/-- `INSERT INTO pattern_contributions ... ON CONFLICT (pattern_id, contributor_hash) DO NOTHING`. -/
def ledgerInsert (ledger : List (Nat × String)) (pid : Nat) (h : String) :
    List (Nat × String) :=
  if (pid, h) ∈ ledger then ledger else ledger ++ [(pid, h)]

/-- `SELECT COUNT(DISTINCT contributor_hash) FROM pattern_contributions WHERE pattern_id = $1`. -/
def distinctContributors (ledger : List (Nat × String)) (pid : Nat) : Nat :=
  (((ledger.filter (fun e => e.1 = pid)).map (fun e => e.2)).dedup).length

/-- Per-pattern outcome of the contribute loop (absent a storage failure). -/
inductive COutcome | acceptedNew | mergedExisting
deriving Repr, DecidableEq

/-- The body of the per-pattern loop of `POST /contribute`
(src routes/federation.ts). Looks up by fingerprint; when found, records
the ledger entry (duplicates silently ignored), recomputes
`newCount` as the distinct ledger count (the `|| row.contributor_count`
fallback of the source is dead here because the pair was just ensured to
be in the ledger), recomputes the weighted-average effectiveness from the
row's stored `contributor_count`, and updates the row with
`contributor_count = Math.max(newCount, row.contributor_count + 1)`,
`effectiveness = Math.min(newEffectiveness, 1)` and `last_seen = NOW()`.
When not found, inserts a new row with count 1 plus its first ledger entry. -/
def contributeOne (now : Nat) (contributorHash : String) (st : FedState)
    (p : IncomingPattern) : FedState × COutcome :=
  let dedup := dedupHash p.category p.approach
  match st.patterns.find? (fun r => r.hash = dedup) with
  | some row =>
    let ledger' := ledgerInsert st.ledger row.pid contributorHash
    let newCount := distinctContributors ledger' row.pid
    let newEffectiveness : ℚ :=
      (row.effectiveness * row.contributorCount + p.effectiveness) /
        (row.contributorCount + 1)
    let patterns' := st.patterns.map (fun r =>
      if r.pid = row.pid then
        { r with contributorCount := max newCount (row.contributorCount + 1),
                 lastSeen := now,
                 effectiveness := min newEffectiveness 1 }
      else r)
    ({ st with patterns := patterns', ledger := ledger' }, .mergedExisting)
  | none =>
    let row : CPattern :=
      { pid := st.nextId, ptype := p.ptype, category := p.category,
        platform := p.platform, approach := p.approach, tags := p.tags,
        effectiveness := p.effectiveness, contributorCount := 1,
        firstSeen := now, lastSeen := now, hash := dedup }
    ({ patterns := st.patterns ++ [row],
       ledger := ledgerInsert st.ledger row.pid contributorHash,
       nextId := st.nextId + 1 }, .acceptedNew)

/-- The `{accepted, merged, rejected}` counters of `POST /contribute`. -/
structure ContribResult where
  accepted : Nat
  merged : Nat
  rejected : Nat
deriving Repr, DecidableEq

/-- Bump the counter matching the per-pattern outcome. -/
def outcomeAdd (oc : COutcome) (r : ContribResult) : ContribResult :=
  match oc with
  | .acceptedNew => { r with accepted := r.accepted + 1 }
  | .mergedExisting => { r with merged := r.merged + 1 }

/-- Where, if anywhere, the store throws during one pattern's processing
in the contribute loop. The per-pattern try-body spans several
auto-committed statements, so a throw can strike after earlier statements
of the same body have already committed:
* `ok` — no failure, the whole body runs;
* `early` — a throw before any write of the body commits (the hash
  SELECT throwing, or the branch's first INSERT itself failing);
* `late` — a throw after the branch's first write committed: in the
  new-pattern branch the pattern INSERT committed and the ledger INSERT
  throws (leaving a pattern row with count 1 and no ledger entry); in the
  merge branch the ledger INSERT committed and the count SELECT or the
  UPDATE throws (leaving the ledger entry but the stale pattern row).

A failure of the merge branch's ledger INSERT alone is swallowed by the
inner try/catch and never reaches the per-pattern catch, so it produces
no rejection and is not a failure mode here. -/
inductive FailMode | ok | early | late
deriving Repr, DecidableEq

/-- One pattern of the contribute loop under a failure mode: the state
committed when the per-pattern catch is reached (nothing is rolled back),
and the outcome (`none` meaning the catch counted it rejected). The
`late` new-branch row is the same INSERT as in `contributeOne`. -/
def contributeOneF (fm : FailMode) (now : Nat) (h : String) (st : FedState)
    (p : IncomingPattern) : FedState × Option COutcome :=
  match fm with
  | .ok => ((contributeOne now h st p).1, some (contributeOne now h st p).2)
  | .early => (st, none)
  | .late =>
    match st.patterns.find? (fun r => r.hash = dedupHash p.category p.approach) with
    | some row => ({ st with ledger := ledgerInsert st.ledger row.pid h }, none)
    | none =>
      ({ patterns := st.patterns ++
          [{ pid := st.nextId, ptype := p.ptype, category := p.category,
             platform := p.platform, approach := p.approach, tags := p.tags,
             effectiveness := p.effectiveness, contributorCount := 1,
             firstSeen := now, lastSeen := now,
             hash := dedupHash p.category p.approach }],
         ledger := st.ledger, nextId := st.nextId + 1 }, none)

/-- The contribute loop with a per-pattern failure oracle: each failing
pattern's committed-so-far state stays, the catch counts it rejected, and
the loop continues with the remaining patterns. -/
def contributeF (fail : IncomingPattern → FailMode) (now : Nat) (h : String) :
    FedState → List IncomingPattern → FedState × ContribResult
  | st, [] => (st, ⟨0, 0, 0⟩)
  | st, p :: rest =>
    let step := contributeOneF (fail p) now h st p
    let res := contributeF fail now h step.1 rest
    match step.2 with
    | some oc => (res.1, outcomeAdd oc res.2)
    | none => (res.1, { res.2 with rejected := res.2.rejected + 1 })

/-- `POST /contribute` in a run where no storage operation fails. -/
def contribute (now : Nat) (h : String) (st : FedState)
    (ps : List IncomingPattern) : FedState × ContribResult :=
  contributeF (fun _ => .ok) now h st ps

/-- `K_ANONYMITY_THRESHOLD` (src routes/federation.ts). -/
def kAnonymityThreshold : Nat := 3

/-- The WHERE clause shared by `GET /patterns` (and, with the ts-match
conjunct added, `GET /patterns/search`): the k-anonymity gate
`contributor_count >= 3` plus the optional category/platform equality and
tag-overlap (`tags && $n`) filters. -/
def patternMatchesFilters (category platform : Option String)
    (tags : Option (List String)) (r : CPattern) : Bool :=
  decide (kAnonymityThreshold ≤ r.contributorCount) &&
  (match category with | some c => r.category == c | none => true) &&
  (match platform with | some pl => r.platform == some pl | none => true) &&
  (match tags with | some ts => ts.any (fun t => r.tags.contains t) | none => true)

/-- The result set of `GET /patterns` before `ORDER BY`/`LIMIT`/`OFFSET`;
both the returned page and the returned `total` are computed from this
set in the source. -/
def listWhere (st : FedState) (category platform : Option String)
    (tags : Option (List String)) : List CPattern :=
  st.patterns.filter (patternMatchesFilters category platform tags)

/-- The `total` of `GET /patterns`. -/
def listTotal (st : FedState) (category platform : Option String)
    (tags : Option (List String)) : Nat :=
  (listWhere st category platform tags).length

/-- Result shape of the two search endpoints; `patterns`/`entries` is the
matching result set before ordering and pagination, `total` the COUNT(*)
over the same WHERE clause, exactly as the source computes it. -/
structure PatternSearchOut where
  patterns : List CPattern
  total : Nat
deriving Repr, DecidableEq

/-- `GET /patterns/search` (src routes/federation.ts). `ftMatch tsq r`
is the store's `search_vector @@ to_tsquery('english', tsq)` oracle.
Returns `Except.error` for the 400 response on a missing or
too-short `q`, mirroring `if (!q || q.length < 2)`. -/
def patternsSearch (ftMatch : String → CPattern → Bool) (st : FedState)
    (q : String) (category platform : Option String)
    (tags : Option (List String)) : Except String PatternSearchOut :=
  if q = "" ∨ q.length < 2 then
    .error "Query parameter q is required (min 2 chars)"
  else
    let tsq := tsQueryOf q
    if tsq = "" then .ok ⟨[], 0⟩
    else
      let rows := st.patterns.filter (fun r =>
        ftMatch tsq r && patternMatchesFilters category platform tags r)
      .ok ⟨rows, rows.length⟩

/-! ## Knowledge reconciler (src services/merge.ts, `mergeKnowledgeEntries`) -/

/-- One validated incoming knowledge record (`KnowledgeEntrySchema`). -/
structure KEntry where
  ktype : String
  project : Option String
  sessionId : Option String
  timestamp : Int
  summary : String
  details : Option String
  tags : List String
  relatedFiles : List String
deriving Repr, DecidableEq

/-- A row of `knowledge_entries`. `timestamp` is the client-supplied
BIGINT logical timestamp; `createdAt`/`updatedAt` are the server's
`NOW()` values. -/
structure KRow where
  rid : Nat
  userId : String
  teamId : Option String
  ktype : String
  project : Option String
  sessionId : Option String
  timestamp : Int
  summary : String
  details : Option String
  tags : List String
  relatedFiles : List String
  createdAt : Nat
  updatedAt : Nat
deriving Repr, DecidableEq

/-- The `knowledge_entries` table plus its id sequence. -/
structure KState where
  rows : List KRow
  nextId : Nat
deriving Repr, DecidableEq

/-- JS `x || null` on an optional string: an absent or empty string is null. -/
def orNull : Option String → Option String
  | some s => if s = "" then none else some s
  | none => none

/-- The soft-key probe of the merge:
`WHERE user_id = $1 AND type = $2 AND project IS NOT DISTINCT FROM $3 AND summary = $4`. -/
def softMatch (uid : String) (e : KEntry) (r : KRow) : Bool :=
  r.userId == uid && r.ktype == e.ktype && r.project == orNull e.project &&
    r.summary == e.summary

/-- `{inserted, skipped}` counters of `mergeKnowledgeEntries`. -/
structure MergeCounts where
  inserted : Nat
  skipped : Nat
deriving Repr, DecidableEq

/-- `UPDATE knowledge_entries SET timestamp = GREATEST(timestamp, $1),
updated_at = NOW() WHERE id = $2` applied to one row. -/
def touchRow (now : Nat) (ts : Int) (r : KRow) : KRow :=
  { r with timestamp := max r.timestamp ts, updatedAt := now }

/-- The freshly inserted `knowledge_entries` row for entry `e`. -/
def newRowOf (now : Nat) (uid : String) (tid : Option String) (rid : Nat)
    (e : KEntry) : KRow :=
  { rid := rid, userId := uid, teamId := tid, ktype := e.ktype,
    project := orNull e.project, sessionId := orNull e.sessionId,
    timestamp := e.timestamp, summary := e.summary,
    details := orNull e.details, tags := e.tags,
    relatedFiles := e.relatedFiles, createdAt := now, updatedAt := now }

/-- One iteration of the `mergeKnowledgeEntries` loop. A soft-key match
(`SELECT ... LIMIT 1`, i.e. the first matching row) is updated with
`timestamp = GREATEST(timestamp, $1), updated_at = NOW()` and the record
counts as skipped (`false`); otherwise a fresh row is inserted and it
counts as inserted (`true`). -/
def knowledgeStep (now : Nat) (uid : String) (tid : Option String)
    (st : KState) (e : KEntry) : KState × Bool :=
  match st.rows.find? (softMatch uid e) with
  | some r =>
    ({ st with rows := st.rows.map (fun r' =>
        if r'.rid = r.rid then touchRow now e.timestamp r' else r') }, false)
  | none =>
    ({ rows := st.rows ++ [newRowOf now uid tid st.nextId e],
       nextId := st.nextId + 1 }, true)

/-- `mergeKnowledgeEntries` (src services/merge.ts) in a run where no
storage operation fails: record-by-record, in submission order. -/
def mergeKnowledgeEntries (now : Nat) (uid : String) (tid : Option String) :
    KState → List KEntry → KState × MergeCounts
  | st, [] => (st, ⟨0, 0⟩)
  | st, e :: rest =>
    let step := knowledgeStep now uid tid st e
    let res := mergeKnowledgeEntries now uid tid step.1 rest
    (res.1, if step.2 then { res.2 with inserted := res.2.inserted + 1 }
            else { res.2 with skipped := res.2.skipped + 1 })

/-- `mergeKnowledgeEntries` with a storage-failure oracle: `fail e = true`
models the store throwing on `e`'s query before committing anything for
`e`. The loop body has no try/catch, so the exception propagates: the
remaining records are not processed and the caller sees the error, while
rows already committed by earlier iterations remain (each statement is
its own transaction; nothing is rolled back). -/
def mergeKnowledgeEntriesE (fail : KEntry → Bool) (now : Nat) (uid : String)
    (tid : Option String) : KState → List KEntry → KState × Except String MergeCounts
  | st, [] => (st, .ok ⟨0, 0⟩)
  | st, e :: rest =>
    if fail e then (st, .error "storage failure")
    else
      let step := knowledgeStep now uid tid st e
      match mergeKnowledgeEntriesE fail now uid tid step.1 rest with
      | (st', .ok c) =>
        (st', .ok (if step.2 then { c with inserted := c.inserted + 1 }
                   else { c with skipped := c.skipped + 1 }))
      | (st', .error m) => (st', .error m)

/-! ## Session upserter (src services/merge.ts, `mergeSessionSummaries`;
the `POST /sessions` route runs the identical upsert statement) -/

/-- One validated incoming session summary (`SessionSummarySchema`); the
payload is `JSON.stringify`-serialized, opaque to this core. -/
structure SIncoming where
  sessionId : String
  project : Option String
  summary : String
deriving Repr, DecidableEq

/-- A row of `session_summaries`. -/
structure SRow where
  userId : String
  teamId : Option String
  sessionId : String
  project : Option String
  summary : String
  createdAt : Nat
deriving Repr, DecidableEq

/-- The `(user_id, session_id)` key of the upsert's UNIQUE constraint. -/
def sessionKey (uid sid : String) (r : SRow) : Bool :=
  r.userId == uid && r.sessionId == sid

/-- `INSERT INTO session_summaries ... ON CONFLICT (user_id, session_id)
DO UPDATE SET summary = $5, project = $4 RETURNING (xmax = 0) AS is_new`.
On conflict only `summary` and `project` are assigned; `team_id` and
`created_at` keep their stored values. Returns `true` iff inserted. -/
def upsertSession (now : Nat) (uid : String) (tid : Option String)
    (st : List SRow) (s : SIncoming) : List SRow × Bool :=
  if st.any (sessionKey uid s.sessionId) then
    (st.map (fun r =>
      if sessionKey uid s.sessionId r then
        { r with summary := s.summary, project := orNull s.project }
      else r), false)
  else
    (st ++ [{ userId := uid, teamId := tid, sessionId := s.sessionId,
              project := orNull s.project, summary := s.summary,
              createdAt := now }], true)

/-- `{inserted, updated}` counters of `mergeSessionSummaries`. -/
structure SessionCounts where
  inserted : Nat
  updated : Nat
deriving Repr, DecidableEq

/-- `mergeSessionSummaries` (src services/merge.ts). -/
def mergeSessionSummaries (now : Nat) (uid : String) (tid : Option String) :
    List SRow → List SIncoming → List SRow × SessionCounts
  | st, [] => (st, ⟨0, 0⟩)
  | st, s :: rest =>
    let step := upsertSession now uid tid st s
    let res := mergeSessionSummaries now uid tid step.1 rest
    (res.1, if step.2 then { res.2 with inserted := res.2.inserted + 1 }
            else { res.2 with updated := res.2.updated + 1 })

/-! ## Private knowledge search (src services/search.ts) -/

/-- Result of `searchKnowledge`: the matching rows (before ordering and
`LIMIT`/`OFFSET`) and the `total` COUNT(*) over the same WHERE clause. -/
structure KSearchOut where
  entries : List KRow
  total : Nat
deriving Repr, DecidableEq

/-- The ownership scope predicate:
`(ke.user_id = $1 OR ke.team_id = $2)` with a team id, else `ke.user_id = $1`. -/
def scopeMatch (uid : String) (tid : Option String) (r : KRow) : Bool :=
  match tid with
  | some t => r.userId == uid || r.teamId == some t
  | none => r.userId == uid

/-- `searchKnowledge` (src services/search.ts). `ftMatch tsq r` is the
store's tsvector `@@ to_tsquery` oracle over the row's summary/details.
An empty effective ts-query short-circuits to `{entries: [], total: 0}`. -/
def searchKnowledge (ftMatch : String → KRow → Bool) (uid : String)
    (tid : Option String) (q : String) (project ktype : Option String)
    (st : KState) : KSearchOut :=
  let tsq := tsQueryOf q
  if tsq = "" then ⟨[], 0⟩
  else
    let rows := st.rows.filter (fun r =>
      scopeMatch uid tid r && ftMatch tsq r &&
      (match project with | some p => r.project == some p | none => true) &&
      (match ktype with | some t => r.ktype == t | none => true))
    ⟨rows, rows.length⟩

/-! ## Concrete scenario: one contributor resubmits the same pattern

Used by the theorems on the k-anonymity gate and the ledger. A single
contributor hash submits a byte-identical pattern three times. -/

/-- A 64-character contributor hash, as `ContributeSchema` requires. -/
def hashA : String :=
  "aaaaaaaaaaaaaaaaaaaaaaaaaaaaaaaaaaaaaaaaaaaaaaaaaaaaaaaaaaaaaaaa"

def repeatPattern : IncomingPattern :=
  { ptype := "solution", category := "CORS", platform := none,
    approach := "Use proxy config in vite config to forward API requests",
    tags := ["cors", "vite"], effectiveness := 9/10 }

/-- State after the 1st submission of `repeatPattern` by `hashA`. -/
def repeatRun1 : FedState := (contribute 1 hashA FedState.empty [repeatPattern]).1

/-- State after the 2nd (identical) submission by the same `hashA`. -/
def repeatRun2 : FedState := (contribute 2 hashA repeatRun1 [repeatPattern]).1

/-- State after the 3rd (identical) submission by the same `hashA`. -/
def repeatRun3 : FedState := (contribute 3 hashA repeatRun2 [repeatPattern]).1

/-- Claim C1 (k-anonymity gate, refuted by the code): after one single
contributor hash submits the same pattern three times, the pattern's
contribution ledger still holds exactly 1 distinct contributor hash, yet
the pattern (pid 0) appears in the result set of GET /patterns and in
GET /patterns/search (here with an all-matching full-text oracle), and is
counted in the gated total. The gate tests the stored `contributor_count`,
which the merge branch sets to `max(distinct, old + 1)`, letting
resubmissions push it past the threshold; so visibility is NOT equivalent
to the ledger holding at least 3 distinct contributor hashes. After the
1st and 2nd submissions the pattern is still invisible, so the flip to
visible happens on a resubmission that adds no new distinct contributor. -/
theorem c1_kanonymity_gate_code_bug :
    listTotal repeatRun1 none none none = 0 ∧
    listTotal repeatRun2 none none none = 0 ∧
    (∃ r ∈ listWhere repeatRun3 none none none, r.pid = 0 ∧ r.contributorCount = 3) ∧
    listTotal repeatRun3 none none none = 1 ∧
    (patternsSearch (fun _ _ => true) repeatRun3 "proxy" none none
        none).toOption.map (fun o => o.patterns.map (fun r => r.pid)) = some [0] ∧
    distinctContributors repeatRun3.ledger 0 = 1 := by decide

/-- Claim C2 (ledger uniqueness, refuted by the code): submitting the same
(pattern fingerprint, contributorHash) pair three times leaves exactly one
ledger row, but the stored `contributor_count` climbs 1, 2, 3 across the
submissions — an increase of 2 after the first, not at most 1 — because
the merge branch stores `max(distinct ledger count, old count + 1)`. The
stored count therefore does not remain the number of distinct contributor
hashes in the ledger (3 vs 1). -/
theorem c2_ledger_uniqueness_code_bug :
    (∃ r ∈ repeatRun1.patterns, r.pid = 0 ∧ r.contributorCount = 1) ∧
    (∃ r ∈ repeatRun2.patterns, r.pid = 0 ∧ r.contributorCount = 2) ∧
    (∃ r ∈ repeatRun3.patterns, r.pid = 0 ∧ r.contributorCount = 3) ∧
    repeatRun3.ledger = [(0, hashA)] ∧
    distinctContributors repeatRun3.ledger 0 = 1 := by decide

/-- Claim C6, counterexample: `dedupHash` does not lower-case the
category, so two contributions whose categories differ only in letter
case get different fingerprints and do not merge into one pattern. -/
theorem c6_category_case_counterexample :
    dedupHash "CORS" "Use proxy config in vite config" ≠
      dedupHash "cors" "Use proxy config in vite config" := by decide

/-- Claim C6, amended: the normalization (lower-casing, punctuation
replaced by spaces, whitespace collapsed, trimmed) is applied to the
approach text only, while the category enters the fingerprint verbatim;
for a fixed category, any two approaches with the same normalization —
in particular approaches differing only in letter case, whitespace runs,
or punctuation-as-separator — produce the same fingerprint. -/
theorem c6_fingerprint_normalisation_amended :
    (∀ c a1 a2, normaliseApproach a1 = normaliseApproach a2 →
      dedupHash c a1 = dedupHash c a2) ∧
    dedupHash "CORS" "Use   Proxy, Config!!" = dedupHash "CORS" "use proxy config" := by
  constructor
  · intro c a1 a2 h
    simp [dedupHash, h]
  · decide

/-- Witness for the amended C6 theorem at concrete inputs. -/
theorem c6_fingerprint_normalisation_amended_witness :
    dedupHash "k8s" "Retry  With Backoff" = dedupHash "k8s" "retry with backoff." :=
  c6_fingerprint_normalisation_amended.1 "k8s" "Retry  With Backoff"
    "retry with backoff." (by decide)

/-- Claim C8, counterexample: the public pattern search rejects the
single-character query "a" with a validation error (the handler returns
400 when `q.length < 2` before tokenizing), instead of returning an empty
result set with total 0. -/
theorem c8_short_query_counterexample :
    patternsSearch (fun _ _ => true) FedState.empty "a" none none none =
      Except.error "Query parameter q is required (min 2 chars)" := by rfl

/-- Claim C8, amended: the private knowledge search returns an empty
result set with total 0 for every query whose tokens are all discarded
(including the single-character query "a"); the public pattern search does
the same for every such query that passes its minimum-length check
(length at least 2, e.g. "a b"), while queries shorter than 2 characters
are rejected with a validation error there. -/
theorem c8_empty_query_amended :
    (∀ ftM uid tid q project ktype st, tsQueryOf q = "" →
      searchKnowledge ftM uid tid q project ktype st = ⟨[], 0⟩) ∧
    (∀ ftM st q category platform tags, ¬(q = "" ∨ q.length < 2) →
      tsQueryOf q = "" →
      patternsSearch ftM st q category platform tags = .ok ⟨[], 0⟩) := by
  constructor
  · intro _ _ _ q _ _ _ h
    simp [searchKnowledge, h]
  · intro _ _ q _ _ _ h1 h2
    simp [patternsSearch, h1, h2]

/-- Witness for the amended C8 theorem: query "a" on knowledge search,
query "a b" (length 3, both tokens too short) on pattern search. -/
theorem c8_empty_query_amended_witness :
    searchKnowledge (fun _ _ => true) "u" none "a" none none ⟨[], 0⟩ = ⟨[], 0⟩ ∧
    patternsSearch (fun _ _ => true) FedState.empty "a b" none none none =
      .ok ⟨[], 0⟩ :=
  ⟨c8_empty_query_amended.1 (fun _ _ => true) "u" none "a" none none ⟨[], 0⟩
      (by decide),
   c8_empty_query_amended.2 (fun _ _ => true) FedState.empty "a b" none none none
      (by decide) (by decide)⟩

/-- Concrete knowledge entries for the batch-independence counterexample. -/
def entryA : KEntry := ⟨"solution", none, none, 10, "A", none, [], []⟩

def entryB : KEntry := ⟨"solution", none, none, 11, "B", none, [], []⟩

def entryC : KEntry := ⟨"solution", none, none, 12, "C", none, [], []⟩

/-- Claim C9, counterexample: in `mergeKnowledgeEntries` a storage failure
on the second record of the batch [A, B, C] leaves the first record
committed (no rollback) but prevents the third record from being processed
— the stored state holds only "A" and the call surfaces the error — so the
outcomes of the records in a knowledge batch are not independent. -/
theorem c9_knowledge_abort_counterexample :
    (mergeKnowledgeEntriesE (fun e => e.summary == "B") 5 "u" none ⟨[], 0⟩
        [entryA, entryB, entryC]).1.rows.map (fun r => r.summary) = ["A"] ∧
    (mergeKnowledgeEntriesE (fun e => e.summary == "B") 5 "u" none ⟨[], 0⟩
        [entryA, entryB, entryC]).2 = .error "storage failure" :=
  ⟨by decide, by rfl⟩

/-! ## Session upsert lemmas -/

/-- The conflict-update assignment touches only `summary` and `project`,
so the `(user_id, session_id)` key predicate is unchanged by it. -/
theorem sessionKey_update (uid sid : String) (s : SIncoming) (r : SRow) :
    sessionKey uid sid
        { r with summary := s.summary, project := orNull s.project } =
      sessionKey uid sid r := rfl

/-- The number of rows holding the upserted key after an upsert is one if
it was zero before, and is unchanged otherwise. -/
theorem upsertSession_countP (now : Nat) (uid : String) (tid : Option String)
    (st : List SRow) (s : SIncoming) :
    ((upsertSession now uid tid st s).1).countP (sessionKey uid s.sessionId) =
      max (st.countP (sessionKey uid s.sessionId)) 1 := by
  by_cases h : st.any (sessionKey uid s.sessionId) = true
  · have hpos : 0 < st.countP (sessionKey uid s.sessionId) := by
      rw [List.countP_pos_iff]
      exact List.any_eq_true.mp h
    have hmap : ((st.map fun r => if sessionKey uid s.sessionId r then
        { r with summary := s.summary, project := orNull s.project } else r).countP
          (sessionKey uid s.sessionId)) =
        st.countP (sessionKey uid s.sessionId) := by
      rw [List.countP_map]
      apply List.countP_congr
      intro a _
      cases hk : sessionKey uid s.sessionId a <;>
        simp [Function.comp, hk, sessionKey_update]
    simp [upsertSession, h, hmap, Nat.max_eq_left hpos]
  · have hzero : st.countP (sessionKey uid s.sessionId) = 0 := by
      rw [List.countP_eq_zero]
      intro a ha hpa
      exact h (List.any_eq_true.mpr ⟨a, ha, hpa⟩)
    have hnew : sessionKey uid s.sessionId
        { userId := uid, teamId := tid, sessionId := s.sessionId,
          project := orNull s.project, summary := s.summary,
          createdAt := now } = true := by
      simp [sessionKey]
    simp [upsertSession, h, List.countP_append, hzero, hnew]

/-- Every row carrying the upserted key after an upsert carries the
incoming payload and project label. -/
theorem upsertSession_content (now : Nat) (uid : String) (tid : Option String)
    (st : List SRow) (s : SIncoming) :
    ∀ r ∈ (upsertSession now uid tid st s).1,
      sessionKey uid s.sessionId r = true →
      r.summary = s.summary ∧ r.project = orNull s.project := by
  intro r hr hk
  by_cases h : st.any (sessionKey uid s.sessionId) = true
  · simp only [upsertSession, h, if_pos] at hr
    rw [List.mem_map] at hr
    obtain ⟨a, _, rfl⟩ := hr
    cases hka : sessionKey uid s.sessionId a
    · rw [hka] at hk
      simp at hk
      rw [hk] at hka
      simp at hka
    · simp [hka]
  · simp only [upsertSession, h, if_neg] at hr
    rcases List.mem_append.mp hr with hmem | hmem
    · exact absurd (List.any_eq_true.mpr ⟨r, hmem, hk⟩) h
    · rcases List.mem_singleton.mp hmem with rfl
      exact ⟨rfl, rfl⟩

/-- Claim C7: pushing two session summaries with the same session id (in
any order of server times, with any team ids) leaves exactly one stored
row for that (user, session id), and that row carries the payload and
project label of the second push — the later write fully replaces the
earlier one, with no merging and no timestamp comparison. The starting
state only needs the UNIQUE(user_id, session_id) invariant (at most one
row for the key). -/
theorem c7_session_last_write_wins (now1 now2 : Nat) (uid : String)
    (tid1 tid2 : Option String) (st : List SRow) (s1 s2 : SIncoming)
    (hsid : s1.sessionId = s2.sessionId)
    (hwf : st.countP (sessionKey uid s2.sessionId) ≤ 1) :
    ((upsertSession now2 uid tid2 (upsertSession now1 uid tid1 st s1).1 s2).1).countP
        (sessionKey uid s2.sessionId) = 1 ∧
    ∀ r ∈ (upsertSession now2 uid tid2 (upsertSession now1 uid tid1 st s1).1 s2).1,
      sessionKey uid s2.sessionId r = true →
      r.summary = s2.summary ∧ r.project = orNull s2.project := by
  constructor
  · rw [upsertSession_countP]
    have h1 : ((upsertSession now1 uid tid1 st s1).1).countP
        (sessionKey uid s2.sessionId) =
        max (st.countP (sessionKey uid s2.sessionId)) 1 := by
      rw [← hsid]
      exact upsertSession_countP now1 uid tid1 st s1
    rw [h1]
    omega
  · exact upsertSession_content now2 uid tid2 _ s2

/-- Witness for C7: two pushes of session id "s1" into an empty store;
the single surviving row counts once under its key. -/
theorem c7_session_last_write_wins_witness :
    ((upsertSession 2 "u" none
        (upsertSession 1 "u" none [] ⟨"s1", none, "v1"⟩).1
        ⟨"s1", some "p", "v2"⟩).1).countP (sessionKey "u" "s1") = 1 :=
  (c7_session_last_write_wins 1 2 "u" none none [] ⟨"s1", none, "v1"⟩
    ⟨"s1", some "p", "v2"⟩ (by rfl) (by decide)).1

/-- Claim C10 (frame property of the session upsert): when the pushed
(user id, session id) pair already exists, the upsert takes the
conflict-update branch, which maps each stored row in place replacing
only `summary` and `project` on the keyed row; in particular the stored
rows' `team_id` and `created_at` columns are all unchanged, even when the
later push supplies a different team id. -/
theorem c10_session_upsert_frame (now : Nat) (uid : String)
    (tid : Option String) (st : List SRow) (s : SIncoming)
    (h : st.any (sessionKey uid s.sessionId) = true) :
    upsertSession now uid tid st s =
      (st.map (fun r => if sessionKey uid s.sessionId r then
          { r with summary := s.summary, project := orNull s.project } else r),
       false) ∧
    (upsertSession now uid tid st s).1.map (fun r => (r.teamId, r.createdAt)) =
      st.map (fun r => (r.teamId, r.createdAt)) := by
  have h1 : upsertSession now uid tid st s =
      (st.map (fun r => if sessionKey uid s.sessionId r then
          { r with summary := s.summary, project := orNull s.project } else r),
       false) := by
    simp [upsertSession, h]
  refine ⟨h1, ?_⟩
  rw [h1]
  rw [List.map_map]
  apply List.map_congr_left
  intro r _
  cases hk : sessionKey uid s.sessionId r <;> simp [Function.comp, hk]

/-- The stored row used by the C10 witness: team t1, created at 7. -/
def sRow0 : SRow := ⟨"u", some "t1", "s1", none, "v1", 7⟩

/-- The later push of the C10 witness: same session id, different team id. -/
def sInc0 : SIncoming := ⟨"s1", some "p", "v2"⟩

/-- Witness for C10: re-pushing session "s1" with team id t2 leaves the
stored row's team id (t1) and creation time (7) unchanged. -/
theorem c10_session_upsert_frame_witness :
    (upsertSession 9 "u" (some "t2") [sRow0] sInc0).1.map
        (fun r => (r.teamId, r.createdAt)) =
      [sRow0].map (fun r => (r.teamId, r.createdAt)) :=
  (c10_session_upsert_frame 9 "u" (some "t2") [sRow0] sInc0 (by decide)).2

/-! ## Batch independence lemmas -/

/-- Processing one more pattern under any failure mode only moves the
state forward for the rest of the loop. -/
theorem contributeF_cons_fst (fail : IncomingPattern → FailMode) (now : Nat)
    (h : String) (st : FedState) (p : IncomingPattern)
    (rest : List IncomingPattern) :
    (contributeF fail now h st (p :: rest)).1 =
      (contributeF fail now h (contributeOneF (fail p) now h st p).1 rest).1 := by
  simp only [contributeF]
  cases (contributeOneF (fail p) now h st p).2 <;> simp

/-- A failing pattern is the one whose mode is not `ok`, and it yields no
outcome from its body. -/
theorem contributeOneF_fail_snd (fm : FailMode) (now : Nat) (h : String)
    (st : FedState) (p : IncomingPattern) (hfm : fm ≠ FailMode.ok) :
    (contributeOneF fm now h st p).2 = none := by
  cases fm with
  | ok => exact absurd rfl hfm
  | early => rfl
  | late =>
    cases hf : st.patterns.find?
        (fun r => r.hash = dedupHash p.category p.approach) <;>
      simp [contributeOneF, hf]

/-- Claim C9, amended: batch processing is non-transactional in both
operations — a failure never rolls back statements already committed
earlier in the batch — but only `contribute` isolates failures per item.
In `mergeKnowledgeEntries` there is no per-record catch: a storage
failure on one record leaves the store exactly as after the records
before it (earlier records stay committed) and surfaces the error without
processing the remaining records. In `contribute`, the per-pattern
try/catch counts each failing pattern as rejected and continues: every
pattern of the batch receives exactly one outcome (accepted + merged +
rejected = batch length, rejected = the number of failing patterns), and
the final state of any batch is that of processing its remainder from
whatever state the earlier items — including any failures — left behind,
so a failure on one pattern does not prevent the remaining patterns from
being processed. A mid-pattern failure may itself leave partial committed
state for that pattern, since its try-body spans several auto-committed
statements: for example a pattern row inserted with count 1 whose ledger
entry was never recorded. -/
theorem c9_batch_independence_amended :
    (∀ (fail : KEntry → Bool) now uid tid (st : KState) pre bad post,
      (∀ e ∈ pre, fail e = false) → fail bad = true →
      mergeKnowledgeEntriesE fail now uid tid st (pre ++ bad :: post) =
        ((mergeKnowledgeEntries now uid tid st pre).1, .error "storage failure")) ∧
    (∀ (fail : IncomingPattern → FailMode) now h (st : FedState) ps,
      (contributeF fail now h st ps).2.accepted +
          (contributeF fail now h st ps).2.merged +
          (contributeF fail now h st ps).2.rejected = ps.length ∧
      (contributeF fail now h st ps).2.rejected =
        ps.countP (fun p => decide (fail p ≠ FailMode.ok))) ∧
    (∀ (fail : IncomingPattern → FailMode) now h (st : FedState) ps1 ps2,
      (contributeF fail now h st (ps1 ++ ps2)).1 =
        (contributeF fail now h (contributeF fail now h st ps1).1 ps2).1) ∧
    ((contributeOneF .late 5 hashA FedState.empty repeatPattern).1.patterns.length
        = 1 ∧
      (contributeOneF .late 5 hashA FedState.empty repeatPattern).1.ledger = []) := by
  refine ⟨?_, ?_, ?_, by decide⟩
  · intro fail now uid tid st pre bad post hpre hbad
    induction pre generalizing st with
    | nil =>
      simp [mergeKnowledgeEntriesE, hbad, mergeKnowledgeEntries]
    | cons e rest ih =>
      have he : fail e = false := hpre e (List.mem_cons_self e rest)
      have hrest : ∀ x ∈ rest, fail x = false := fun x hx =>
        hpre x (List.mem_cons_of_mem e hx)
      simp only [List.cons_append, mergeKnowledgeEntriesE, he,
        Bool.false_eq_true, if_false, mergeKnowledgeEntries, List.append_eq]
      rw [ih _ hrest]
  · intro fail now h st ps
    induction ps generalizing st with
    | nil => simp [contributeF]
    | cons p rest ih =>
      obtain ⟨ihSum, ihRej⟩ := ih (contributeOneF (fail p) now h st p).1
      by_cases hfm : fail p = FailMode.ok
      · have hsnd : (contributeOneF (fail p) now h st p).2 =
            some (contributeOne now h st p).2 := by
          rw [hfm]
          rfl
        have hcnt : (decide (fail p ≠ FailMode.ok)) = false := by
          simp [hfm]
        simp only [contributeF, hsnd, List.countP_cons, List.length_cons, hcnt,
          Bool.false_eq_true, if_false]
        cases (contributeOne now h st p).2 <;>
          simp only [outcomeAdd] <;> constructor <;> omega
      · have hsnd := contributeOneF_fail_snd (fail p) now h st p hfm
        have hcnt : (decide (fail p ≠ FailMode.ok)) = true := by
          simp [hfm]
        simp only [contributeF, hsnd, List.countP_cons, List.length_cons, hcnt,
          if_true]
        constructor <;> omega
  · intro fail now h st ps1 ps2
    induction ps1 generalizing st with
    | nil => simp [contributeF]
    | cons p rest ih =>
      rw [List.cons_append, contributeF_cons_fst, ih, contributeF_cons_fst]

/-- Witness for amended C9: a batch [A, failing B, C] on knowledge merge
keeps A committed, errors, and never processes C. -/
theorem c9_batch_independence_amended_witness :
    mergeKnowledgeEntriesE (fun e => e.summary == "B") 5 "u" none ⟨[], 0⟩
        [entryA, entryB, entryC] =
      ((mergeKnowledgeEntries 5 "u" none ⟨[], 0⟩ [entryA]).1,
       .error "storage failure") :=
  c9_batch_independence_amended.1 (fun e => e.summary == "B") 5 "u" none
    ⟨[], 0⟩ [entryA] entryB [entryC] (by decide) (by decide)

/-! ## Timestamp monotonicity (knowledge merge) -/

/-- Correspondence between a stored row and its version after a merge:
identity and payload columns unchanged, logical timestamp only raised
(the refreshed `updated_at` is unconstrained). -/
def rowLe (r r' : KRow) : Prop :=
  r'.rid = r.rid ∧ r'.userId = r.userId ∧ r'.teamId = r.teamId ∧
  r'.ktype = r.ktype ∧ r'.project = r.project ∧ r'.sessionId = r.sessionId ∧
  r'.summary = r.summary ∧ r'.details = r.details ∧ r'.tags = r.tags ∧
  r'.relatedFiles = r.relatedFiles ∧ r'.createdAt = r.createdAt ∧
  r.timestamp ≤ r'.timestamp

theorem rowLe_refl (r : KRow) : rowLe r r :=
  ⟨rfl, rfl, rfl, rfl, rfl, rfl, rfl, rfl, rfl, rfl, rfl, le_refl _⟩

theorem rowLe_trans {a b c : KRow} (h1 : rowLe a b) (h2 : rowLe b c) :
    rowLe a c := by
  obtain ⟨e1, e2, e3, e4, e5, e6, e7, e8, e9, e10, e11, l1⟩ := h1
  obtain ⟨f1, f2, f3, f4, f5, f6, f7, f8, f9, f10, f11, l2⟩ := h2
  exact ⟨f1.trans e1, f2.trans e2, f3.trans e3, f4.trans e4, f5.trans e5,
    f6.trans e6, f7.trans e7, f8.trans e8, f9.trans e9, f10.trans e10,
    f11.trans e11, l1.trans l2⟩

theorem rowLe_touch (now : Nat) (ts : Int) (r : KRow) :
    rowLe r (touchRow now ts r) :=
  ⟨rfl, rfl, rfl, rfl, rfl, rfl, rfl, rfl, rfl, rfl, rfl, le_max_left _ _⟩

/-- One merge iteration only raises timestamps of stored rows. -/
theorem knowledgeStep_rowLe (now : Nat) (uid : String) (tid : Option String)
    (st : KState) (e : KEntry) :
    ∀ r ∈ st.rows, ∃ r' ∈ (knowledgeStep now uid tid st e).1.rows, rowLe r r' := by
  intro r hr
  rcases hfind : st.rows.find? (softMatch uid e) with _ | r0
  · simp only [knowledgeStep, hfind]
    exact ⟨r, List.mem_append.mpr (Or.inl hr), rowLe_refl r⟩
  · simp only [knowledgeStep, hfind]
    refine ⟨if r.rid = r0.rid then touchRow now e.timestamp r else r,
      List.mem_map_of_mem _ hr, ?_⟩
    by_cases hpid : r.rid = r0.rid
    · simp only [hpid, if_true]
      exact rowLe_touch now e.timestamp r
    · simp only [hpid, if_false]
      exact rowLe_refl r

/-- A whole merge only raises timestamps of stored rows. -/
theorem mergeKnowledgeEntries_rowLe (now : Nat) (uid : String)
    (tid : Option String) :
    ∀ (es : List KEntry) (st : KState), ∀ r ∈ st.rows,
      ∃ r' ∈ (mergeKnowledgeEntries now uid tid st es).1.rows, rowLe r r' := by
  intro es
  induction es with
  | nil => exact fun st r hr => ⟨r, hr, rowLe_refl r⟩
  | cons e rest ih =>
    intro st r hr
    obtain ⟨r1, hr1, hle1⟩ := knowledgeStep_rowLe now uid tid st e r hr
    obtain ⟨r2, hr2, hle2⟩ := ih (knowledgeStep now uid tid st e).1 r1 hr1
    refine ⟨r2, ?_, rowLe_trans hle1 hle2⟩
    simp only [mergeKnowledgeEntries]
    exact hr2

/-- Claim C4: across any merge, every stored knowledge row keeps its
identity and payload columns and its logical timestamp never decreases;
and in the update branch specifically — when an incoming entry soft-key
matches an existing row (first match, as `SELECT ... LIMIT 1`) — the
matched row's stored timestamp becomes `GREATEST(existing, incoming)` and
the record counts as skipped. -/
theorem c4_timestamp_monotonicity :
    (∀ now uid tid (st : KState) es, ∀ r ∈ st.rows,
      ∃ r' ∈ (mergeKnowledgeEntries now uid tid st es).1.rows, rowLe r r') ∧
    (∀ now uid tid (st : KState) e r,
      st.rows.find? (softMatch uid e) = some r →
      (knowledgeStep now uid tid st e).2 = false ∧
      ∃ r' ∈ (knowledgeStep now uid tid st e).1.rows,
        r'.rid = r.rid ∧ r'.timestamp = max r.timestamp e.timestamp) := by
  constructor
  · exact fun now uid tid st es => mergeKnowledgeEntries_rowLe now uid tid es st
  · intro now uid tid st e r hfind
    constructor
    · simp [knowledgeStep, hfind]
    · simp only [knowledgeStep, hfind]
      refine ⟨touchRow now e.timestamp r, ?_, rfl, rfl⟩
      have hfr : (fun r' => if r'.rid = r.rid then touchRow now e.timestamp r'
          else r') r = touchRow now e.timestamp r := by simp
      rw [← hfr]
      exact List.mem_map_of_mem _ (List.mem_of_find?_eq_some hfind)

/-- A stored row for the C4/C3 witnesses: entry A merged for user u. -/
def kRow0 : KRow := newRowOf 1 "u" none 0 entryA

/-- Witness for C4 at concrete inputs: a one-row store merged with a
fresh entry keeps the row raised-or-equal; re-merging the matching entry
takes the update branch with the GREATEST semantics. -/
theorem c4_timestamp_monotonicity_witness :
    (∃ r' ∈ (mergeKnowledgeEntries 2 "u" none ⟨[kRow0], 1⟩ [entryC]).1.rows,
      rowLe kRow0 r') ∧
    ((knowledgeStep 2 "u" none ⟨[kRow0], 1⟩ entryA).2 = false ∧
      ∃ r' ∈ (knowledgeStep 2 "u" none ⟨[kRow0], 1⟩ entryA).1.rows,
        r'.rid = kRow0.rid ∧
        r'.timestamp = max kRow0.timestamp entryA.timestamp) :=
  ⟨c4_timestamp_monotonicity.1 2 "u" none ⟨[kRow0], 1⟩ [entryC] kRow0 (by decide),
   c4_timestamp_monotonicity.2 2 "u" none ⟨[kRow0], 1⟩ entryA kRow0 (by decide)⟩

/-! ## Effectiveness bounds (pattern aggregator) -/

/-- One contribute iteration keeps every stored effectiveness in [0, 1],
given the incoming effectiveness is in [0, 1] (as `PatternSchema`
guarantees via `z.number().min(0).max(1)`). -/
theorem contributeOne_eff_bounds (now : Nat) (h : String) (st : FedState)
    (p : IncomingPattern)
    (hst : ∀ r ∈ st.patterns, 0 ≤ r.effectiveness ∧ r.effectiveness ≤ 1)
    (hp : 0 ≤ p.effectiveness ∧ p.effectiveness ≤ 1) :
    ∀ r ∈ (contributeOne now h st p).1.patterns,
      0 ≤ r.effectiveness ∧ r.effectiveness ≤ 1 := by
  intro r hr
  rcases hfind : st.patterns.find?
      (fun q => q.hash = dedupHash p.category p.approach) with _ | row
  · simp only [contributeOne, hfind] at hr
    rcases List.mem_append.mp hr with hm | hm
    · exact hst r hm
    · rcases List.mem_singleton.mp hm with rfl
      exact hp
  · simp only [contributeOne, hfind] at hr
    rw [List.mem_map] at hr
    obtain ⟨x, hx, rfl⟩ := hr
    by_cases hpid : x.pid = row.pid
    · have hrow := hst row (List.mem_of_find?_eq_some hfind)
      simp only [hpid, if_true]
      constructor
      · apply le_min
        · apply div_nonneg
          · exact add_nonneg
              (mul_nonneg hrow.1 (Nat.cast_nonneg row.contributorCount)) hp.1
          · positivity
        · exact zero_le_one
      · exact min_le_right _ _
    · simp only [hpid, if_false]
      exact hst x hx

/-- The state reached by `contribute` on a batch steps pattern-wise. -/
theorem contribute_cons_fst (now : Nat) (h : String) (st : FedState)
    (p : IncomingPattern) (rest : List IncomingPattern) :
    (contribute now h st (p :: rest)).1 =
      (contribute now h (contributeOne now h st p).1 rest).1 := by
  simp [contribute, contributeF, contributeOneF]

/-- Claim C5: when contribute merges into an existing pattern, the new
stored effectiveness is exactly
`(oldEffectiveness * oldContributorCount + incomingEffectiveness) /
(oldContributorCount + 1)` clamped to at most 1; and for any batch whose
incoming effectiveness values lie in [0, 1], every stored effectiveness
remains in [0, 1] — so, the bound being preserved by each contribute call
from any state satisfying it, it holds after any number of merges. -/
theorem c5_effectiveness_merge :
    (∀ now h (st : FedState) p row,
      st.patterns.find? (fun r => r.hash = dedupHash p.category p.approach) =
        some row →
      ∃ r' ∈ (contributeOne now h st p).1.patterns, r'.pid = row.pid ∧
        r'.effectiveness =
          min ((row.effectiveness * row.contributorCount + p.effectiveness) /
            (row.contributorCount + 1)) 1) ∧
    (∀ now h (st : FedState) ps,
      (∀ r ∈ st.patterns, 0 ≤ r.effectiveness ∧ r.effectiveness ≤ 1) →
      (∀ p ∈ ps, 0 ≤ p.effectiveness ∧ p.effectiveness ≤ 1) →
      ∀ r ∈ (contribute now h st ps).1.patterns,
        0 ≤ r.effectiveness ∧ r.effectiveness ≤ 1) := by
  constructor
  · intro now h st p row hfind
    simp only [contributeOne, hfind]
    refine ⟨_, List.mem_map_of_mem _ (List.mem_of_find?_eq_some hfind), ?_⟩
    simp
  · intro now h st ps
    induction ps generalizing st with
    | nil =>
      intro hst _ r hr
      exact hst r hr
    | cons p rest ih =>
      intro hst hps r hr
      rw [contribute_cons_fst] at hr
      exact ih (contributeOne now h st p).1
        (contributeOne_eff_bounds now h st p hst
          (hps p (List.mem_cons_self p rest)))
        (fun q hq => hps q (List.mem_cons_of_mem p hq)) r hr

/-- The existing pattern of the C5 witness (effectiveness 0, count 1). -/
def effPattern : CPattern :=
  { pid := 0, ptype := "solution", category := "CORS", platform := none,
    approach := "fix the cors", tags := [], effectiveness := 0,
    contributorCount := 1, firstSeen := 0, lastSeen := 0,
    hash := dedupHash "CORS" "fix the cors" }

/-- The incoming contribution of the C5 witness (same fingerprint). -/
def effInc : IncomingPattern :=
  { ptype := "solution", category := "CORS", platform := none,
    approach := "fix the cors", tags := [], effectiveness := 0 }

/-- Witness for C5 at concrete inputs. -/
theorem c5_effectiveness_merge_witness :
    (∃ r' ∈ (contributeOne 9 hashA ⟨[effPattern], [(0, hashA)], 1⟩
        effInc).1.patterns, r'.pid = effPattern.pid ∧
      r'.effectiveness =
        min ((effPattern.effectiveness * effPattern.contributorCount +
          effInc.effectiveness) / (effPattern.contributorCount + 1)) 1) ∧
    (∀ r ∈ (contribute 9 hashA FedState.empty [effInc]).1.patterns,
      0 ≤ r.effectiveness ∧ r.effectiveness ≤ 1) :=
  ⟨c5_effectiveness_merge.1 9 hashA ⟨[effPattern], [(0, hashA)], 1⟩ effInc
      effPattern (by rfl),
   c5_effectiveness_merge.2 9 hashA FedState.empty [effInc]
      (by intro r hr; simp [FedState.empty] at hr)
      (by
        intro p hp
        rw [List.mem_singleton] at hp
        subst hp
        exact ⟨le_refl 0, zero_le_one⟩)⟩

/-! ## Idempotence of the knowledge merge

The second submission of a batch only refreshes `updated_at` on the
matched rows; everything else — row multiset, payloads, logical
timestamps, the id sequence — is unchanged, and every record counts as
skipped. Rows are compared through `eraseUpd`, which blanks the one
column the update branch is specified to touch. -/

/-- Blank the refreshed `updated_at` column for comparison. -/
def eraseUpd (r : KRow) : KRow := { r with updatedAt := 0 }

/-- Store invariants delivered by the schema: primary keys are unique and
below the id sequence value. -/
def KState.WF (st : KState) : Prop :=
  (st.rows.map (fun r => r.rid)).Nodup ∧ ∀ r ∈ st.rows, r.rid < st.nextId

theorem softMatch_eraseUpd (uid : String) (e : KEntry) (r : KRow) :
    softMatch uid e (eraseUpd r) = softMatch uid e r := rfl

theorem softMatch_touch (uid : String) (e : KEntry) (now : Nat) (ts : Int)
    (r : KRow) : softMatch uid e (touchRow now ts r) = softMatch uid e r := rfl

theorem softMatch_newRow_self (now : Nat) (uid : String) (tid : Option String)
    (rid : Nat) (e : KEntry) :
    softMatch uid e (newRowOf now uid tid rid e) = true := by
  simp [softMatch, newRowOf]

/-- After a merge has processed entry `e`, the store's first soft-key
match for `e` exists and already carries a timestamp at least `e`'s. -/
def tsEstablished (uid : String) (st : KState) (e : KEntry) : Prop :=
  ∃ r, st.rows.find? (softMatch uid e) = some r ∧ e.timestamp ≤ r.timestamp

theorem softMatch_comp_update (uid : String) (e : KEntry) (now : Nat)
    (ts : Int) (rid0 : Nat) :
    (softMatch uid e) ∘
        (fun r' : KRow => if r'.rid = rid0 then touchRow now ts r' else r') =
      softMatch uid e := by
  funext x
  by_cases hx : x.rid = rid0 <;> simp [Function.comp, hx, softMatch_touch]

theorem find?_update_map (uid : String) (e : KEntry) (now : Nat) (ts : Int)
    (rid0 : Nat) (l : List KRow) :
    (l.map (fun r' : KRow => if r'.rid = rid0 then touchRow now ts r' else r')).find?
        (softMatch uid e) =
      (l.find? (softMatch uid e)).map
        (fun r' => if r'.rid = rid0 then touchRow now ts r' else r') := by
  rw [List.find?_map, softMatch_comp_update]

/-- Processing an entry establishes its soft-key match with an adequate
timestamp (by inserting it or by raising the matched row to GREATEST). -/
theorem knowledgeStep_establishes (now : Nat) (uid : String)
    (tid : Option String) (st : KState) (e : KEntry) :
    tsEstablished uid ((knowledgeStep now uid tid st e).1) e := by
  rcases hfind : st.rows.find? (softMatch uid e) with _ | r0
  · simp only [knowledgeStep, hfind]
    refine ⟨newRowOf now uid tid st.nextId e, ?_, le_refl _⟩
    rw [List.find?_append, hfind]
    simp [List.find?, softMatch_newRow_self]
  · simp only [knowledgeStep, hfind]
    refine ⟨touchRow now e.timestamp r0, ?_, le_max_right _ _⟩
    rw [find?_update_map, hfind]
    simp

/-- Processing any entry preserves an established match (appends do not
shadow an earlier first match; updates only raise timestamps). -/
theorem knowledgeStep_preserves (now : Nat) (uid : String)
    (tid : Option String) (st : KState) (e e' : KEntry) :
    tsEstablished uid st e' →
      tsEstablished uid ((knowledgeStep now uid tid st e).1) e' := by
  rintro ⟨r0, hfind0, hle⟩
  rcases hfind : st.rows.find? (softMatch uid e) with _ | r1
  · simp only [knowledgeStep, hfind]
    refine ⟨r0, ?_, hle⟩
    rw [List.find?_append, hfind0]
    rfl
  · simp only [knowledgeStep, hfind]
    refine ⟨if r0.rid = r1.rid then touchRow now e.timestamp r0 else r0, ?_, ?_⟩
    · rw [find?_update_map, hfind0]
      rfl
    · by_cases hx : r0.rid = r1.rid
      · simp only [hx, if_true]
        exact hle.trans (le_max_left _ _)
      · simp only [hx, if_false]
        exact hle

theorem merge_preserves_tsEstablished (now : Nat) (uid : String)
    (tid : Option String) :
    ∀ (es : List KEntry) (st : KState) (e' : KEntry),
      tsEstablished uid st e' →
      tsEstablished uid ((mergeKnowledgeEntries now uid tid st es).1) e' := by
  intro es
  induction es with
  | nil => exact fun st e' h => h
  | cons e rest ih =>
    intro st e' h
    simp only [mergeKnowledgeEntries]
    exact ih _ e' (knowledgeStep_preserves now uid tid st e e' h)

/-- After a whole merge, every entry of the batch is established. -/
theorem merge_establishes (now : Nat) (uid : String) (tid : Option String) :
    ∀ (es : List KEntry) (st : KState) (e : KEntry), e ∈ es →
      tsEstablished uid ((mergeKnowledgeEntries now uid tid st es).1) e := by
  intro es
  induction es with
  | nil => intro st e h; cases h
  | cons e0 rest ih =>
    intro st e h
    rcases List.mem_cons.mp h with rfl | hmem
    · simp only [mergeKnowledgeEntries]
      exact merge_preserves_tsEstablished now uid tid rest _ e
        (knowledgeStep_establishes now uid tid st e)
    · simp only [mergeKnowledgeEntries]
      exact ih _ e hmem

/-- One merge iteration preserves the store invariants. -/
theorem knowledgeStep_WF (now : Nat) (uid : String) (tid : Option String)
    (st : KState) (e : KEntry) (hWF : KState.WF st) :
    KState.WF ((knowledgeStep now uid tid st e).1) := by
  obtain ⟨hnd, hbound⟩ := hWF
  rcases hfind : st.rows.find? (softMatch uid e) with _ | r0
  · simp only [knowledgeStep, hfind]
    constructor
    · rw [List.map_append, List.nodup_append]
      refine ⟨hnd, List.nodup_singleton _, ?_⟩
      intro a ha hb
      rw [List.map_singleton, List.mem_singleton] at hb
      rw [List.mem_map] at ha
      obtain ⟨x, hx, rfl⟩ := ha
      exact absurd (hb ▸ hbound x hx) (lt_irrefl _)
    · intro r hr
      rcases List.mem_append.mp hr with hm | hm
      · exact (hbound r hm).trans (Nat.lt_succ_self _)
      · rcases List.mem_singleton.mp hm with rfl
        exact Nat.lt_succ_self _
  · simp only [knowledgeStep, hfind]
    have hmap : (st.rows.map (fun r' =>
        if r'.rid = r0.rid then touchRow now e.timestamp r' else r')).map
          (fun r => r.rid) = st.rows.map (fun r => r.rid) := by
      rw [List.map_map]
      apply List.map_congr_left
      intro x _
      by_cases hx : x.rid = r0.rid <;> simp [Function.comp, hx, touchRow]
    constructor
    · rw [hmap]
      exact hnd
    · intro r hr
      rw [List.mem_map] at hr
      obtain ⟨x, hx, rfl⟩ := hr
      by_cases hxr : x.rid = r0.rid
      · simp only [hxr, if_true]
        exact hbound x hx
      · simp only [hxr, if_false]
        exact hbound x hx

theorem merge_WF (now : Nat) (uid : String) (tid : Option String) :
    ∀ (es : List KEntry) (st : KState), KState.WF st →
      KState.WF ((mergeKnowledgeEntries now uid tid st es).1) := by
  intro es
  induction es with
  | nil => exact fun st h => h
  | cons e rest ih =>
    intro st h
    simp only [mergeKnowledgeEntries]
    exact ih _ (knowledgeStep_WF now uid tid st e h)

/-- The first soft-key match is determined by the rows up to `updated_at`. -/
theorem find?_congr_eraseUpd (uid : String) (e : KEntry) {l₁ l₂ : List KRow}
    (h : l₁.map eraseUpd = l₂.map eraseUpd) :
    (l₁.find? (softMatch uid e)).map eraseUpd =
      (l₂.find? (softMatch uid e)).map eraseUpd := by
  have hcomp : (softMatch uid e) ∘ eraseUpd = softMatch uid e := by
    funext x
    simp [Function.comp, softMatch_eraseUpd]
  have h1 : (l₁.map eraseUpd).find? (softMatch uid e) =
      (l₁.find? (softMatch uid e)).map eraseUpd := by
    rw [List.find?_map, hcomp]
  have h2 : (l₂.map eraseUpd).find? (softMatch uid e) =
      (l₂.find? (softMatch uid e)).map eraseUpd := by
    rw [List.find?_map, hcomp]
  rw [← h1, ← h2, h]

/-- When the matched row already carries an adequate timestamp, the
update branch only refreshes `updated_at`: the rows are unchanged up to
`eraseUpd`, the id sequence is unchanged, and the record is skipped. -/
theorem knowledgeStep_skip (now : Nat) (uid : String) (tid : Option String)
    (st : KState) (e : KEntry) (r : KRow)
    (hnd : (st.rows.map (fun x => x.rid)).Nodup)
    (hfind : st.rows.find? (softMatch uid e) = some r)
    (hts : e.timestamp ≤ r.timestamp) :
    ((knowledgeStep now uid tid st e).1).rows.map eraseUpd =
        st.rows.map eraseUpd ∧
    ((knowledgeStep now uid tid st e).1).nextId = st.nextId ∧
    (knowledgeStep now uid tid st e).2 = false := by
  simp only [knowledgeStep, hfind]
  refine ⟨?_, trivial, trivial⟩
  rw [List.map_map]
  apply List.map_congr_left
  intro x hx
  by_cases hxr : x.rid = r.rid
  · have hxeq : x = r :=
      List.inj_on_of_nodup_map hnd hx (List.mem_of_find?_eq_some hfind) hxr
    subst hxeq
    simp only [Function.comp, if_pos rfl]
    show eraseUpd (touchRow now e.timestamp x) = eraseUpd x
    unfold eraseUpd touchRow
    rw [max_eq_left hts]
  · simp [Function.comp, hxr]

/-- Second pass over an already-merged batch: in any state equivalent to
the first-pass result up to `updated_at`, merging the batch again changes
nothing up to `updated_at` and skips every record. -/
theorem merge_second_pass (now2 : Nat) (uid : String) (tid2 : Option String)
    (stF : KState) :
    ∀ (es : List KEntry) (cur : KState),
      (∀ e ∈ es, tsEstablished uid stF e) →
      cur.rows.map eraseUpd = stF.rows.map eraseUpd →
      cur.nextId = stF.nextId →
      (cur.rows.map (fun r => r.rid)).Nodup →
      (mergeKnowledgeEntries now2 uid tid2 cur es).1.rows.map eraseUpd =
          stF.rows.map eraseUpd ∧
      (mergeKnowledgeEntries now2 uid tid2 cur es).1.nextId = stF.nextId ∧
      (mergeKnowledgeEntries now2 uid tid2 cur es).2 = ⟨0, es.length⟩ := by
  intro es
  induction es with
  | nil =>
    intro cur _ h1 h2 _
    exact ⟨h1, h2, rfl⟩
  | cons e rest ih =>
    intro cur hP hEq hNext hNd
    obtain ⟨r, hfindF, hle⟩ := hP e (List.mem_cons_self e rest)
    have htrans := find?_congr_eraseUpd uid e hEq
    rw [hfindF] at htrans
    rcases hfc : cur.rows.find? (softMatch uid e) with _ | r2
    · rw [hfc] at htrans
      simp at htrans
    · rw [hfc] at htrans
      have hup : eraseUpd r2 = eraseUpd r := by
        simpa using htrans
      have hts2 : e.timestamp ≤ r2.timestamp := by
        have hts_eq : (eraseUpd r2).timestamp = (eraseUpd r).timestamp :=
          congrArg KRow.timestamp hup
        have hts_eq' : r2.timestamp = r.timestamp := hts_eq
        rw [hts_eq']
        exact hle
      obtain ⟨hskipEq, hskipNext, hskipOut⟩ :=
        knowledgeStep_skip now2 uid tid2 cur e r2 hNd hfc hts2
      have hNd' : ((knowledgeStep now2 uid tid2 cur e).1.rows.map
          (fun r => r.rid)).Nodup := by
        have hfix : ∀ (l : List KRow),
            l.map (fun r => r.rid) = (l.map eraseUpd).map (fun r => r.rid) := by
          intro l
          rw [List.map_map]
          apply List.map_congr_left
          intro x _
          rfl
        have hr : (knowledgeStep now2 uid tid2 cur e).1.rows.map
            (fun r => r.rid) = cur.rows.map (fun r => r.rid) := by
          rw [hfix, hskipEq, ← hfix]
        rw [hr]
        exact hNd
      have hres := ih (knowledgeStep now2 uid tid2 cur e).1
        (fun x hx => hP x (List.mem_cons_of_mem e hx))
        (hskipEq.trans hEq) (hskipNext.trans hNext) hNd'
      simp only [mergeKnowledgeEntries]
      refine ⟨hres.1, hres.2.1, ?_⟩
      rw [hskipOut, hres.2.2]
      rfl

/-- Claim C3: resubmitting a batch is idempotent. After the second
submission (at any later server time, with any team id) the stored state
is identical to the state after the first submission except for the
`updated_at` column that the update branch is specified to touch: same
rows in the same order up to `eraseUpd` (so no duplicate rows and every
logical timestamp unchanged), same id sequence; and the second submission
counts every record as skipped, none inserted. The starting state only
needs the store's primary-key invariants. -/
theorem c3_knowledge_merge_idempotent (now1 now2 : Nat) (uid : String)
    (tid1 tid2 : Option String) (st : KState) (entries : List KEntry)
    (hWF : KState.WF st) :
    (mergeKnowledgeEntries now2 uid tid2
        (mergeKnowledgeEntries now1 uid tid1 st entries).1 entries).2 =
      ⟨0, entries.length⟩ ∧
    (mergeKnowledgeEntries now2 uid tid2
        (mergeKnowledgeEntries now1 uid tid1 st entries).1
          entries).1.rows.map eraseUpd =
      (mergeKnowledgeEntries now1 uid tid1 st entries).1.rows.map eraseUpd ∧
    (mergeKnowledgeEntries now2 uid tid2
        (mergeKnowledgeEntries now1 uid tid1 st entries).1 entries).1.nextId =
      (mergeKnowledgeEntries now1 uid tid1 st entries).1.nextId := by
  have hWF1 := merge_WF now1 uid tid1 entries st hWF
  have hres := merge_second_pass now2 uid tid2
    (mergeKnowledgeEntries now1 uid tid1 st entries).1 entries
    (mergeKnowledgeEntries now1 uid tid1 st entries).1
    (fun e he => merge_establishes now1 uid tid1 entries st e he)
    rfl rfl hWF1.1
  exact ⟨hres.2.2, hres.1, hres.2.1⟩

/-- Witness for C3: pushing the batch [entry A] twice into an empty store
skips the single record on the second push. -/
theorem c3_knowledge_merge_idempotent_witness :
    (mergeKnowledgeEntries 2 "u" none
        (mergeKnowledgeEntries 1 "u" none ⟨[], 0⟩ [entryA]).1 [entryA]).2 =
      ⟨0, 1⟩ :=
  (c3_knowledge_merge_idempotent 1 2 "u" none none ⟨[], 0⟩ [entryA]
    (by constructor <;> simp)).1

end ClaudeHistoryCloud
